import Mathlib

/-!
# Verification of the skills repository validator

Shallow embedding of `scripts/validate-spec.py`: a validator for a
repository of "skill" directories.  Each skill directory holds a
`SKILL.md` file with YAML frontmatter plus a markdown body.  The
validator parses the frontmatter, checks naming / structural / content
rules, and reports errors and warnings.

Strings are modelled as Lean `String`s; character-level operations of
Python (`startswith`, `in`, `find`, `split`, `lower`, `strip`) are
embedded as executable functions on `List Char`.  The external YAML
parser is passed in as an oracle `String → YamlParseResult`.  The file
system seen by one skill validator is a record of the `SKILL.md` file
state, the entries of the directory, and an existence predicate for
relative link targets.
-/

/-! ## Python-style string primitives on lists of characters -/

/-- Python `haystack.startswith(needle)` on exploded strings. -/
def listPrefixOf : List Char → List Char → Bool
  | [], _ => true
  | _ :: _, [] => false
  | a :: as, b :: bs => a == b && listPrefixOf as bs

/-- Python `needle in haystack` (substring containment) on exploded strings. -/
def listInfixOf (needle : List Char) : List Char → Bool
  | [] => needle.isEmpty
  | c :: t => listPrefixOf needle (c :: t) || listInfixOf needle t

/-- Python `haystack.endswith(needle)` on exploded strings. -/
def listSuffixOf (needle hay : List Char) : Bool :=
  listPrefixOf needle.reverse hay.reverse

/-- Python `str.lower` restricted to ASCII (all inputs in this code base are ASCII). -/
def pyLower (cs : List Char) : List Char := cs.map Char.toLower

/-- The ASCII whitespace characters recognised by Python `str.strip`. -/
def pyIsSpaceChar (c : Char) : Bool :=
  c == ' ' || c == '\t' || c == '\n' || c == '\r' || c == '\x0b' || c == '\x0c'

/-- Holds exactly when Python `s.strip()` is the empty string. -/
def pyStripIsEmpty (cs : List Char) : Bool := cs.all pyIsSpaceChar

/-- Python `s.split(sep)` for a one-character separator. -/
def pySplitChar (sep : Char) : List Char → List (List Char)
  | [] => [[]]
  | c :: rest =>
    let r := pySplitChar sep rest
    if c == sep then [] :: r
    else
      match r with
      | h :: t => (c :: h) :: t
      | [] => [[c]]

/-- Scan `hay` for the first occurrence of `needle`; `i` is the absolute index
of the head of `hay` in the original string. -/
def findSubAux (needle : List Char) : List Char → Nat → Option Nat
  | [], i => if needle.isEmpty then some i else none
  | c :: t, i =>
    if listPrefixOf needle (c :: t) then some i else findSubAux needle t (i + 1)

/-- Python `hay.find(needle, start)`, returning `none` for `-1`. -/
def pyFind (needle hay : List Char) (start : Nat) : Option Nat :=
  findSubAux needle (hay.drop start) start

/-! ## Fixed configuration constants (module-level constants of the script) -/

/-- Reserved words that cannot appear in skill names. -/
def RESERVED_WORDS : List String := ["anthropic", "claude"]

/-- Allowed directories within a skill directory. -/
def ALLOWED_SKILL_DIRS : List String := ["scripts", "references", "assets"]

def MAX_NAME_LENGTH : Nat := 64

def MAX_DESCRIPTION_LENGTH : Nat := 1024

/-- Warning threshold for the body line count. -/
def MAX_SKILL_LINES : Nat := 500

/-- The gerund-verb name beginnings accepted by the gerund style nudge. -/
def GERUND_NAME_STARTS : List String :=
  ["analyzing", "diagnosing", "migrating", "optimizing", "configuring",
   "implementing", "tuning", "validating", "planning"]

/-- The "when to use" trigger phrases looked for in descriptions. -/
def TRIGGER_KEYWORDS : List String :=
  ["use when", "when", "if you", "for", "helps", "guides"]

/-- The first-person markers looked for in descriptions. -/
def FIRST_PERSON_WORDS : List String := ["i ", "we ", "my ", "our "]

/-! ## Data model -/

/-- A YAML value as far as this validator inspects it: a string, a mapping, or
some other value carrying its Python type name (used in error messages). -/
inductive YVal where
  | str (s : String)
  | dict
  | other (tyName : String)
  deriving DecidableEq

/-- The Python `type(v).__name__` of a frontmatter value. -/
def YVal.pyTypeName : YVal → String
  | .str _ => "str"
  | .dict => "dict"
  | .other t => t

/-- The parsed frontmatter mapping, restricted to the keys the validator reads.
`none` means the key is absent from the mapping. -/
structure FM where
  name : Option YVal
  description : Option YVal
  license : Option YVal
  compatibility : Option YVal
  metadata : Option YVal
  deriving DecidableEq

/-- Result of the external YAML parser on the frontmatter text: a mapping, a
non-mapping value, or a parse error with a message. -/
inductive YamlParseResult where
  | ok (fm : FM)
  | nonDict
  | err (msg : String)
  deriving DecidableEq

/-- One diagnostic, identified by the `self.error`/`self.warning` call site
that produced it together with its data. -/
inductive Diag where
  | missingSkillMd
  | readFailure
  | missingFrontmatter
  | frontmatterNotClosed
  | frontmatterNotDict
  | invalidYaml (msg : String)
  | unexpectedDirectory (dirName : String)
  | missingName
  | missingDescription
  | nameNotString (tyName : String)
  | nameTooLong (len : Nat)
  | nameBadFormat
  | nameReservedWord (w : String)
  | nameXmlTags
  | nameDirMismatch (name dirName : String)
  | nameGerundWarning (name : String)
  | descNotString (tyName : String)
  | descEmpty
  | descTooLong (len : Nat)
  | descXmlTags
  | descNoTrigger
  | descFirstPerson
  | descSentenceCount
  | licenseNotString (tyName : String)
  | compatNotString (tyName : String)
  | metadataNotDict
  | tooManyLines (n : Nat)
  | brokenReference (target : String)
  deriving DecidableEq

/-- The state of the `SKILL.md` path: missing, unreadable (read raises), or
readable with the given text. -/
inductive FileState where
  | absent
  | unreadable
  | content (text : String)

/-- One entry returned by `iterdir()` on the skill directory. -/
structure Entry where
  name : String
  isDir : Bool
  deriving DecidableEq

/-- A skill directory as seen by `SkillValidator`: its directory name, the
state of its `SKILL.md`, its entries, and existence of relative paths under
it (for the internal-link check). -/
structure SkillDir where
  dirName : String
  skillMd : FileState
  entries : List Entry
  pathExists : String → Bool

/-- Shorthand for `if b: self.error(d)` or `if b: self.warning(d)` — the singleton or empty
diagnostic list produced by one conditional report. -/
def onlyIf (b : Bool) (d : Diag) : List Diag := if b then [d] else []

/-! ## Skill validator -/

/-- Embedding of `_parse_skill_md`: split the file text into frontmatter and body.  Returns
`(parsed frontmatter?, body or raw content, errors added)`.  The YAML parse of
the frontmatter text is delegated to the external oracle `yaml`. -/
def parseSkillMd (yaml : String → YamlParseResult) (content : String) :
    Option FM × String × List Diag :=
  let cs := content.data
  if listPrefixOf "---\n".data cs then
    match pyFind "\n---\n".data cs 4 with
    | none => (none, content, [Diag.frontmatterNotClosed])
    | some endDelimiter =>
      let frontmatterText := String.mk ((cs.drop 4).take (endDelimiter - 4))
      let body := String.mk (cs.drop (endDelimiter + 5))
      match yaml frontmatterText with
      | .ok fm => (some fm, body, [])
      | .nonDict => (none, body, [Diag.frontmatterNotDict])
      | .err m => (none, body, [Diag.invalidYaml m])
  else (none, content, [Diag.missingFrontmatter])

/-- Embedding of `_validate_directory_structure`: one error per subdirectory whose name is
outside the allow-list. -/
def validateDirectoryStructure (entries : List Entry) : List Diag :=
  entries.filterMap fun e =>
    if e.isDir && !(ALLOWED_SKILL_DIRS.contains e.name) then
      some (Diag.unexpectedDirectory e.name)
    else none

/-- The reserved-word loop of `_validate_name`. -/
def reservedErrs (name : List Char) : List Diag :=
  RESERVED_WORDS.filterMap fun w =>
    if listInfixOf w.data name then some (Diag.nameReservedWord w) else none

/-- Python `re.match` with the pattern anchored as in the script:
a nonempty run of lowercase letters / digits / hyphens spanning the whole
string, where a single trailing newline is tolerated by the final anchor. -/
def isNameChar (c : Char) : Bool :=
  ('a' ≤ c && c ≤ 'z') || ('0' ≤ c && c ≤ '9') || c == '-'

def pyNameRegexMatch (cs : List Char) : Bool :=
  let core := if cs.getLast? == some '\n' then cs.dropLast else cs
  !core.isEmpty && core.all isNameChar

/-- Embedding of `_validate_name`: returns `(errors, warnings)` in report order. -/
def validateName (dirName : String) (v : YVal) : List Diag × List Diag :=
  match v with
  | .str name =>
    let e1 := onlyIf (decide (MAX_NAME_LENGTH < name.length)) (Diag.nameTooLong name.length)
    let e2 := onlyIf (!pyNameRegexMatch name.data) Diag.nameBadFormat
    let e3 := reservedErrs name.data
    let e4 := onlyIf (name.data.contains '<' || name.data.contains '>') Diag.nameXmlTags
    let e5 := onlyIf (!(name == dirName)) (Diag.nameDirMismatch name dirName)
    let w1 := onlyIf
      (!listSuffixOf "ing".data name.data &&
        !(GERUND_NAME_STARTS.any fun p => listPrefixOf p.data name.data))
      (Diag.nameGerundWarning name)
    (e1 ++ e2 ++ e3 ++ e4 ++ e5, w1)
  | v => ([Diag.nameNotString v.pyTypeName], [])

/-- Embedding of `_validate_description`: returns `(errors, warnings)` in report order. -/
def validateDescription (v : YVal) : List Diag × List Diag :=
  match v with
  | .str d =>
    if pyStripIsEmpty d.data then ([Diag.descEmpty], [])
    else
      let e1 := onlyIf (decide (MAX_DESCRIPTION_LENGTH < d.length)) (Diag.descTooLong d.length)
      let e2 := onlyIf (d.data.contains '<' || d.data.contains '>') Diag.descXmlTags
      let low := pyLower d.data
      let w1 := onlyIf (!(TRIGGER_KEYWORDS.any fun k => listInfixOf k.data low)) Diag.descNoTrigger
      let w2 := onlyIf (FIRST_PERSON_WORDS.any fun k => listInfixOf k.data low) Diag.descFirstPerson
      let w3 := onlyIf (decide ((pySplitChar '.' d.data).length < 2)) Diag.descSentenceCount
      (e1 ++ e2, w1 ++ w2 ++ w3)
  | v => ([Diag.descNotString v.pyTypeName], [])

/-- Embedding of `_validate_license`. -/
def validateLicense (v : YVal) : List Diag :=
  match v with
  | .str _ => []
  | v => [Diag.licenseNotString v.pyTypeName]

/-- Embedding of `_validate_compatibility`. -/
def validateCompatibility (v : YVal) : List Diag :=
  match v with
  | .str _ => []
  | v => [Diag.compatNotString v.pyTypeName]

/-- Embedding of `_validate_frontmatter`: required fields first (each missing field returns
immediately), then the field validators in source order. -/
def validateFrontmatter (dirName : String) (fm : FM) : List Diag × List Diag :=
  match fm.name with
  | none => ([Diag.missingName], [])
  | some nameV =>
    match fm.description with
    | none => ([Diag.missingDescription], [])
    | some descV =>
      let (nE, nW) := validateName dirName nameV
      let (dE, dW) := validateDescription descV
      let licE := match fm.license with
        | some v => validateLicense v
        | none => []
      let compE := match fm.compatibility with
        | some v => validateCompatibility v
        | none => []
      let metaE := match fm.metadata with
        | some YVal.dict => []
        | some _ => [Diag.metadataNotDict]
        | none => []
      (nE ++ dE ++ licE ++ compE ++ metaE, nW ++ dW)

/-- Parse of one markdown link `[text](target)` starting right after a `[`:
greedy nonempty runs excluding the closing brackets, exactly as the regex
in `_validate_content` matches. -/
def parseLink (cs : List Char) : Option (String × String × List Char) :=
  let text := cs.takeWhile (fun c => !(c == ']'))
  let rest := cs.dropWhile (fun c => !(c == ']'))
  if text.isEmpty then none
  else
    match rest with
    | ']' :: '(' :: rest2 =>
      let target := rest2.takeWhile (fun c => !(c == ')'))
      let rest3 := rest2.dropWhile (fun c => !(c == ')'))
      if target.isEmpty then none
      else
        match rest3 with
        | ')' :: remainder => some (String.mk text, String.mk target, remainder)
        | _ => none
    | _ => none

/-- Left-to-right non-overlapping scan for markdown links, resuming one
character after a failed `[` as the regex engine does.  The fuel is the line
length, which bounds the number of scan steps. -/
def scanLinksAux : Nat → List Char → List (String × String)
  | 0, _ => []
  | _ + 1, [] => []
  | fuel + 1, c :: rest =>
    if c == '[' then
      match parseLink rest with
      | some (text, target, remainder) => (text, target) :: scanLinksAux fuel remainder
      | none => scanLinksAux fuel rest
    else scanLinksAux fuel rest

/-- All `re.findall` matches of the link pattern over one line. -/
def scanLinks (cs : List Char) : List (String × String) :=
  scanLinksAux cs.length cs

/-- A link target exempt from the existence check: absolute URL, fragment, or
mailto. -/
def isExternalTarget (target : String) : Bool :=
  listPrefixOf "http://".data target.data || listPrefixOf "https://".data target.data ||
    listPrefixOf "#".data target.data || listPrefixOf "mailto:".data target.data

/-- Embedding of `_validate_content`: line-count warning, then broken-reference warnings in
line order.  Produces warnings only. -/
def validateContent (pathExists : String → Bool) (body : String) : List Diag :=
  let lines := pySplitChar '\n' body.data
  let w1 :=
    if decide (MAX_SKILL_LINES < lines.length) then [Diag.tooManyLines lines.length] else []
  let w2 := (lines.map fun line =>
    (scanLinks line).filterMap fun lk =>
      if isExternalTarget lk.2 then none
      else if pathExists lk.2 then none
      else some (Diag.brokenReference lk.2)).flatten
  w1 ++ w2

/-- Embedding of `SkillValidator.validate`: run all checks for one skill directory.
Returns `(errors, warnings)`.  Any parse failure (missing file, unreadable
file, missing or unclosed frontmatter, YAML error, non-mapping frontmatter)
returns early with the parse diagnostics only. -/
def SkillValidator.validate (yaml : String → YamlParseResult) (sd : SkillDir) :
    List Diag × List Diag :=
  match sd.skillMd with
  | .absent => ([Diag.missingSkillMd], [])
  | .unreadable => ([Diag.readFailure], [])
  | .content c =>
    match parseSkillMd yaml c with
    | (none, _, parseErrs) => (parseErrs, [])
    | (some fm, body, parseErrs) =>
      let dsErrs := validateDirectoryStructure sd.entries
      let (fE, fW) := validateFrontmatter sd.dirName fm
      let cW := validateContent sd.pathExists body
      (parseErrs ++ dsErrs ++ fE, fW ++ cW)

/-! ## Repository scanner -/

/-- A file-system node as seen by the scanner: a file or a directory with its
immediate children. -/
inductive FSNode where
  | file (name : String)
  | dir (name : String) (children : List FSNode)

/-- The name of a node. -/
def FSNode.fsName : FSNode → String
  | .file n => n
  | .dir n _ => n

/-- Embedding of the check `(p / "SKILL.md").exists()`: some entry (file or directory) is named
`SKILL.md`. -/
def hasSkillMdIn (cs : List FSNode) : Bool :=
  cs.any fun n => n.fsName == "SKILL.md"

/-- The skills contributed by one entry of a domain directory `dn`: the inner
loop body of `_find_skill_directories`.  A discovered skill is identified by
its path segments below the root. -/
def skillCandidate (dn : String) : FSNode → List (List String)
  | .file _ => []
  | .dir sn scs =>
    if listPrefixOf ".".data sn.data then []
    else if hasSkillMdIn scs then [[dn, sn]] else []

/-- The skills contributed by one entry of the root: the outer loop body of
`_find_skill_directories`. -/
def domainCandidate : FSNode → List (List String)
  | .file _ => []
  | .dir dn dcs =>
    if listPrefixOf ".".data dn.data then []
    else (dcs.map (skillCandidate dn)).flatten

/-- Embedding of `RepositoryValidator._find_skill_directories` on the children of the root:
either the root itself (path `[]`) when it holds `SKILL.md`, or the two-level
domain/skill scan. -/
def findSkillDirectories (rootChildren : List FSNode) : List (List String) :=
  if hasSkillMdIn rootChildren then [[]]
  else (rootChildren.map domainCandidate).flatten

/-! ## CLI surface: diagnostic rendering and exit code -/

/-- The `ValidationError` record of the script: a severity level, a message,
and an optional file location. -/
structure ValidationError where
  level : String
  message : String
  filePath : Option String

/-- ANSI escape prelude shared by the colour constants. -/
def ANSI_RED : String := "\x1b[91m"
def ANSI_YELLOW : String := "\x1b[93m"
def ANSI_GREEN : String := "\x1b[92m"
def ANSI_BLUE : String := "\x1b[94m"
def ANSI_RESET : String := "\x1b[0m"
def ANSI_BOLD : String := "\x1b[1m"

/-- Embedding of `ValidationError.format_for_github`: one CI-annotation line. -/
def ValidationError.format_for_github (e : ValidationError) : String :=
  match e.filePath with
  | some p => "::" ++ e.level ++ " file=" ++ p ++ "::" ++ e.message
  | none => "::" ++ e.level ++ "::" ++ e.message

/-- Embedding of `ValidationError.format_for_terminal`: the colourised terminal line. -/
def ValidationError.format_for_terminal (e : ValidationError) : String :=
  let pre :=
    if e.level == "error" then ANSI_RED ++ ANSI_BOLD ++ "ERROR" ++ ANSI_RESET
    else ANSI_YELLOW ++ ANSI_BOLD ++ "WARNING" ++ ANSI_RESET
  let location :=
    match e.filePath with
    | some p => " (" ++ ANSI_BLUE ++ p ++ ANSI_RESET ++ ")"
    | none => ""
  pre ++ location ++ ": " ++ e.message

/-- The rendering-format decision of `main`: the `--github` flag, or the literal
string `GITHUB_ACTIONS` occurring anywhere in `sys.argv`.  No other input
(in particular no environment variable) feeds this decision. -/
def isGithubActions (githubFlag : Bool) (argv : List String) : Bool :=
  githubFlag || argv.contains "GITHUB_ACTIONS"

/-- The list of lines `main` prints for a block of diagnostics, in order. -/
def renderDiagnostics (githubFlag : Bool) (argv : List String)
    (ds : List ValidationError) : List String :=
  ds.map fun d =>
    if isGithubActions githubFlag argv then d.format_for_github
    else d.format_for_terminal

/-- The exit code computed at the end of `main` from the aggregated
diagnostics and the `--strict` flag. -/
def mainExitCode (errors warnings : List ValidationError) (strict : Bool) : Nat :=
  if errors.isEmpty && warnings.isEmpty then 0
  else if !errors.isEmpty then 1
  else if strict && !warnings.isEmpty then 1
  else 0

/-! ## Concrete end-to-end fixture: the skill directory `foo-bar` -/

/-- The mapping PyYAML returns for the frontmatter text of the `foo-bar` fixture. -/
def fmFooBar : FM :=
  ⟨some (YVal.str "foo-bar"), some (YVal.str "Use when the user needs X."),
   none, none, none⟩

/-- The YAML oracle for the `foo-bar` fixture: the answer the real parser gives on the
exact frontmatter text this fixture produces. -/
def yamlFooBar : String → YamlParseResult := fun s =>
  if s = "name: foo-bar\ndescription: \"Use when the user needs X.\"" then
    YamlParseResult.ok fmFooBar
  else YamlParseResult.err "unexpected frontmatter text"

/-- A skill directory named `foo-bar` with the `SKILL.md` of the scenario: both
mandatory fields, no optional fields, no subdirectories, a 10-line body with
no links. -/
def sdFooBar : SkillDir :=
  ⟨"foo-bar",
   FileState.content
     ("---\nname: foo-bar\ndescription: \"Use when the user needs X.\"\n---\n" ++
       "one\ntwo\nthree\nfour\nfive\nsix\nseven\neight\nnine\nten"),
   [], fun _ => false⟩

/-! ## Diagnostic classifiers -/

/-- The structural-error diagnostics produced by `validateDirectoryStructure`. -/
def isUnexpectedDirErr : Diag → Bool
  | .unexpectedDirectory _ => true
  | _ => false

/-- The diagnostics that `validateFrontmatter` can produce (field-level
diagnostics, including the missing-field errors). -/
def isFieldDiag : Diag → Bool
  | .missingName => true
  | .missingDescription => true
  | .nameNotString _ => true
  | .nameTooLong _ => true
  | .nameBadFormat => true
  | .nameReservedWord _ => true
  | .nameXmlTags => true
  | .nameDirMismatch _ _ => true
  | .nameGerundWarning _ => true
  | .descNotString _ => true
  | .descEmpty => true
  | .descTooLong _ => true
  | .descXmlTags => true
  | .descNoTrigger => true
  | .descFirstPerson => true
  | .descSentenceCount => true
  | .licenseNotString _ => true
  | .compatNotString _ => true
  | .metadataNotDict => true
  | _ => false

@[simp] lemma mem_onlyIf {x d : Diag} {b : Bool} : x ∈ onlyIf b d ↔ b = true ∧ x = d := by
  unfold onlyIf
  split <;> simp_all

lemma mem_reservedErrs {d : Diag} {n : List Char} (h : d ∈ reservedErrs n) :
    ∃ w, w ∈ RESERVED_WORDS ∧ listInfixOf w.data n = true ∧ d = Diag.nameReservedWord w := by
  simp only [reservedErrs, List.mem_filterMap] at h
  obtain ⟨w, hw, hf⟩ := h
  split at hf
  · exact ⟨w, hw, by assumption, by injection hf with h; exact h.symm⟩
  · exact absurd hf (by simp)

lemma validateName_errs_field (dn : String) (v : YVal) :
    ∀ d ∈ (validateName dn v).1, isFieldDiag d = true := by
  intro d hd
  cases v with
  | str n =>
    simp only [validateName, List.mem_append, mem_onlyIf] at hd
    rcases hd with ((((⟨-, rfl⟩ | ⟨-, rfl⟩) | hd) | ⟨-, rfl⟩) | ⟨-, rfl⟩) <;>
      first
        | rfl
        | (obtain ⟨w, -, -, rfl⟩ := mem_reservedErrs hd; rfl)
  | dict => simp only [validateName, List.mem_singleton] at hd; subst hd; rfl
  | other t => simp only [validateName, List.mem_singleton] at hd; subst hd; rfl

lemma validateName_warns_field (dn : String) (v : YVal) :
    ∀ d ∈ (validateName dn v).2, isFieldDiag d = true := by
  intro d hd
  cases v with
  | str n =>
    simp only [validateName, mem_onlyIf] at hd
    obtain ⟨-, rfl⟩ := hd
    rfl
  | dict => simp [validateName] at hd
  | other t => simp [validateName] at hd

lemma validateDescription_errs_field (v : YVal) :
    ∀ d ∈ (validateDescription v).1, isFieldDiag d = true := by
  intro d hd
  cases v with
  | str s =>
    simp only [validateDescription] at hd
    split at hd
    · simp only [List.mem_singleton] at hd; subst hd; rfl
    · simp only [List.mem_append, mem_onlyIf] at hd
      rcases hd with ⟨-, rfl⟩ | ⟨-, rfl⟩ <;> rfl
  | dict => simp only [validateDescription, List.mem_singleton] at hd; subst hd; rfl
  | other t => simp only [validateDescription, List.mem_singleton] at hd; subst hd; rfl

lemma validateDescription_warns_field (v : YVal) :
    ∀ d ∈ (validateDescription v).2, isFieldDiag d = true := by
  intro d hd
  cases v with
  | str s =>
    simp only [validateDescription] at hd
    split at hd
    · simp at hd
    · simp only [List.mem_append, mem_onlyIf] at hd
      rcases hd with (⟨-, rfl⟩ | ⟨-, rfl⟩) | ⟨-, rfl⟩ <;> rfl
  | dict => simp [validateDescription] at hd
  | other t => simp [validateDescription] at hd

lemma validateLicense_field (v : YVal) : ∀ d ∈ validateLicense v, isFieldDiag d = true := by
  intro d hd
  cases v with
  | str s => simp [validateLicense] at hd
  | dict => simp only [validateLicense, List.mem_singleton] at hd; subst hd; rfl
  | other t => simp only [validateLicense, List.mem_singleton] at hd; subst hd; rfl

lemma validateCompatibility_field (v : YVal) :
    ∀ d ∈ validateCompatibility v, isFieldDiag d = true := by
  intro d hd
  cases v with
  | str s => simp [validateCompatibility] at hd
  | dict => simp only [validateCompatibility, List.mem_singleton] at hd; subst hd; rfl
  | other t => simp only [validateCompatibility, List.mem_singleton] at hd; subst hd; rfl

lemma validateFrontmatter_errs_field (dn : String) (fm : FM) :
    ∀ d ∈ (validateFrontmatter dn fm).1, isFieldDiag d = true := by
  intro d hd
  cases hn : fm.name with
  | none => simp only [validateFrontmatter, hn, List.mem_singleton] at hd; subst hd; rfl
  | some nv =>
    cases hdsc : fm.description with
    | none => simp only [validateFrontmatter, hn, hdsc, List.mem_singleton] at hd; subst hd; rfl
    | some dv =>
      simp only [validateFrontmatter, hn, hdsc, List.mem_append] at hd
      rcases hd with (((h | h) | h) | h) | h
      · exact validateName_errs_field dn nv d h
      · exact validateDescription_errs_field dv d h
      · cases hl : fm.license with
        | none => rw [hl] at h; cases h
        | some lv => rw [hl] at h; exact validateLicense_field lv d h
      · cases hc : fm.compatibility with
        | none => rw [hc] at h; cases h
        | some cv => rw [hc] at h; exact validateCompatibility_field cv d h
      · cases hm : fm.metadata with
        | none => rw [hm] at h; cases h
        | some mv =>
          rw [hm] at h
          cases mv with
          | str s => simp only [List.mem_singleton] at h; subst h; rfl
          | dict => cases h
          | other t => simp only [List.mem_singleton] at h; subst h; rfl

lemma validateFrontmatter_warns_field (dn : String) (fm : FM) :
    ∀ d ∈ (validateFrontmatter dn fm).2, isFieldDiag d = true := by
  intro d hd
  cases hn : fm.name with
  | none => simp [validateFrontmatter, hn] at hd
  | some nv =>
    cases hdsc : fm.description with
    | none => simp [validateFrontmatter, hn, hdsc] at hd
    | some dv =>
      simp only [validateFrontmatter, hn, hdsc, List.mem_append] at hd
      rcases hd with h | h
      · exact validateName_warns_field dn nv d h
      · exact validateDescription_warns_field dv d h

lemma validateDirectoryStructure_all_unexpected (entries : List Entry) :
    ∀ d ∈ validateDirectoryStructure entries, isUnexpectedDirErr d = true := by
  intro d hd
  simp only [validateDirectoryStructure, List.mem_filterMap] at hd
  obtain ⟨e, _, hf⟩ := hd
  split at hf
  · injection hf with h; subst h; rfl
  · exact absurd hf (by simp)

lemma parseSkillMd_errs (yaml : String → YamlParseResult) (c : String) :
    ∀ d ∈ (parseSkillMd yaml c).2.2,
      d = Diag.missingFrontmatter ∨ d = Diag.frontmatterNotClosed ∨
        d = Diag.frontmatterNotDict ∨ ∃ m, d = Diag.invalidYaml m := by
  intro d hd
  simp only [parseSkillMd] at hd
  split at hd
  · split at hd
    · simp only [List.mem_singleton] at hd; right; left; exact hd
    · split at hd
      · cases hd
      · simp only [List.mem_singleton] at hd; right; right; left; exact hd
      · simp only [List.mem_singleton] at hd; right; right; right; exact ⟨_, hd⟩
  · simp only [List.mem_singleton] at hd; left; exact hd

lemma isFieldDiag_not_unexpected {d : Diag} (h : isFieldDiag d = true) :
    isUnexpectedDirErr d = false := by
  cases d <;> first | rfl | cases h

lemma listPrefixOf_length {a b : List Char} (h : listPrefixOf a b = true) :
    a.length ≤ b.length := by
  induction a generalizing b with
  | nil => simp
  | cons x xs ih =>
    cases b with
    | nil => cases h
    | cons y ys =>
      simp only [listPrefixOf, Bool.and_eq_true] at h
      simpa using ih h.2

/-! ## Claim theorems -/

/-- C1 counterexample: a skill directory holding the disallowed subdirectory
`evil` whose `SKILL.md` has no frontmatter delimiter gets only the
missing-frontmatter error — no structural error is produced, contradicting
the claim that the structural check runs regardless of frontmatter parsing. -/
theorem structural_check_skipped_on_parse_failure_cex :
    (SkillValidator.validate (fun _ => YamlParseResult.err "e")
        ⟨"some-skill", FileState.content "no frontmatter here",
         [⟨"evil", true⟩], fun _ => false⟩).1 = [Diag.missingFrontmatter] ∧
    Diag.unexpectedDirectory "evil" ∉
      (SkillValidator.validate (fun _ => YamlParseResult.err "e")
        ⟨"some-skill", FileState.content "no frontmatter here",
         [⟨"evil", true⟩], fun _ => false⟩).1 := by
  decide

/-- C2 counterexample: with `name` absent and a `description` that would fail
its own checks (it contains XML tags), the frontmatter validator reports only
the missing-name error; the checks of the present field are not evaluated. -/
theorem missing_name_skips_description_checks_cex :
    validateFrontmatter "skill-a" ⟨none, some (YVal.str "<b>"), none, none, none⟩
        = ([Diag.missingName], []) ∧
    (validateDescription (YVal.str "<b>")).1 ≠ [] := by
  decide

/-- C3 counterexample: a description that is a string but empty after
trimming gets only the empty-description error; the trigger-phrase,
first-person and sentence-count checks (which on `" "` would produce the
no-trigger and sentence-count warnings) are not evaluated. -/
theorem empty_description_short_circuits_cex :
    validateDescription (YVal.str " ") = ([Diag.descEmpty], []) := by
  decide

/-- C9 counterexample: a `SKILL.md` whose final line is exactly `---` with no
trailing newline is reported as frontmatter-not-closed, contradicting the
claim that it is accepted as properly closed. -/
theorem unterminated_closing_delimiter_cex :
    (SkillValidator.validate (fun _ => YamlParseResult.nonDict)
        ⟨"s", FileState.content "---\nname: x\n---", [], fun _ => false⟩).1
        = [Diag.frontmatterNotClosed] := by
  decide

/-- C4: a metadata file whose text does not begin with the opening
frontmatter delimiter line produces exactly one error for the skill and no
other diagnostics — in particular no field-level checks run. -/
theorem missing_opening_delimiter_single_error
    (yaml : String → YamlParseResult) (sd : SkillDir) (c : String)
    (h1 : sd.skillMd = FileState.content c)
    (h2 : listPrefixOf "---\n".data c.data = false) :
    SkillValidator.validate yaml sd = ([Diag.missingFrontmatter], []) := by
  obtain ⟨dn, md, entries, px⟩ := sd
  simp only at h1
  subst h1
  simp [SkillValidator.validate, parseSkillMd, h2]

/-- Witness for C4 at a concrete unreadable-frontmatter file. -/
theorem missing_opening_delimiter_single_error_witness :
    SkillValidator.validate (fun _ => YamlParseResult.nonDict)
        ⟨"s", FileState.content "hello", [], fun _ => false⟩
        = ([Diag.missingFrontmatter], []) :=
  missing_opening_delimiter_single_error (fun _ => YamlParseResult.nonDict) _ "hello" rfl
    (by decide)

/-- C5: a skill name that is a string matching the name pattern, of length at
most 64, without reserved-word substrings or angle brackets, and equal to the
directory name, produces zero name errors (warnings are unconstrained). -/
theorem valid_name_zero_errors (dn n : String)
    (hregex : pyNameRegexMatch n.data = true)
    (hlen : n.length ≤ MAX_NAME_LENGTH)
    (hres : ∀ w ∈ RESERVED_WORDS, listInfixOf w.data n.data = false)
    (hlt : n.data.contains '<' = false) (hgt : n.data.contains '>' = false)
    (hdir : n = dn) :
    (validateName dn (YVal.str n)).1 = [] := by
  have h1 := hres "anthropic" (by simp [RESERVED_WORDS])
  have h2 := hres "claude" (by simp [RESERVED_WORDS])
  have hlt' : '<' ∉ n.data := by simpa using hlt
  have hgt' : '>' ∉ n.data := by simpa using hgt
  subst hdir
  simp [validateName, onlyIf, reservedErrs, RESERVED_WORDS, Nat.not_lt.mpr hlen,
    hregex, h1, h2, hlt', hgt']

/-- Witness for C5 at the concrete name `foo-bar`. -/
theorem valid_name_zero_errors_witness :
    (validateName "foo-bar" (YVal.str "foo-bar")).1 = [] :=
  valid_name_zero_errors "foo-bar" "foo-bar" (by decide) (by decide)
    (by decide) (by decide) (by decide) rfl

/-- C6: the end-to-end `foo-bar` scenario yields zero errors and exactly one
warning, the gerund-form name warning. -/
theorem foo_bar_end_to_end :
    SkillValidator.validate yamlFooBar sdFooBar
      = ([], [Diag.nameGerundWarning "foo-bar"]) := by
  decide

/-- C7: the process exit code is 0 iff there are no errors and (no warnings
or `--strict` unset), and 1 iff there is an error or (`--strict` and a
warning). -/
theorem exit_code_characterization (errors warnings : List ValidationError) (strict : Bool) :
    (mainExitCode errors warnings strict = 0 ↔
      (errors = [] ∧ (warnings = [] ∨ strict = false))) ∧
    (mainExitCode errors warnings strict = 1 ↔
      (errors ≠ [] ∨ (strict = true ∧ warnings ≠ []))) := by
  unfold mainExitCode
  cases errors <;> cases warnings <;> cases strict <;> simp

/-- C2 corrected: if any mandatory field is missing, a single missing-field
error is reported (`name` takes precedence) and all remaining frontmatter
field validation is skipped, including the checks of the other, present
mandatory field. -/
theorem missing_mandatory_field_short_circuits_all (dn : String) (fm : FM)
    (h : fm.name = none ∨ fm.description = none) :
    validateFrontmatter dn fm
      = ([if fm.name.isNone then Diag.missingName else Diag.missingDescription], []) := by
  rcases h with h | h
  · simp [validateFrontmatter, h]
  · cases hn : fm.name with
    | none => simp [validateFrontmatter, hn]
    | some v => simp [validateFrontmatter, hn, h]

/-- Witness for the corrected C2: `description` absent, `name` present. -/
theorem missing_mandatory_field_short_circuits_all_witness :
    validateFrontmatter "skill-b" ⟨some (YVal.str "skill-b"), none, none, none, none⟩
      = ([Diag.missingDescription], []) := by
  have h := missing_mandatory_field_short_circuits_all "skill-b"
    ⟨some (YVal.str "skill-b"), none, none, none, none⟩ (Or.inr rfl)
  simpa using h

/-- C1 corrected: structural errors for disallowed subdirectories are emitted
exactly when frontmatter parsing succeeded (one per disallowed subdirectory),
and are absent whenever parsing failed. -/
theorem structural_errors_iff_parse_success (yaml : String → YamlParseResult)
    (dn c : String) (entries : List Entry) (px : String → Bool) :
    ((SkillValidator.validate yaml ⟨dn, FileState.content c, entries, px⟩).1.filter
        isUnexpectedDirErr
      = if (parseSkillMd yaml c).1.isSome then validateDirectoryStructure entries else [])
    ∧ (validateDirectoryStructure entries).length
        = entries.countP fun e => e.isDir && !(ALLOWED_SKILL_DIRS.contains e.name) := by
  constructor
  · rcases hp : parseSkillMd yaml c with ⟨fmOpt, body, perrs⟩
    have hperrs : ∀ d ∈ perrs, isUnexpectedDirErr d = false := by
      intro d hd
      have := parseSkillMd_errs yaml c d (by rw [hp]; exact hd)
      rcases this with rfl | rfl | rfl | ⟨m, rfl⟩ <;> rfl
    cases fmOpt with
    | none =>
      simp only [SkillValidator.validate, hp, Option.isSome_none, Bool.false_eq_true,
        if_false]
      exact List.filter_eq_nil_iff.mpr (by simpa using hperrs)
    | some fm =>
      rcases hf : validateFrontmatter dn fm with ⟨fE, fW⟩
      have hfE : ∀ d ∈ fE, isUnexpectedDirErr d = false := fun d hd =>
        isFieldDiag_not_unexpected (validateFrontmatter_errs_field dn fm d (by rw [hf]; exact hd))
      simp only [SkillValidator.validate, hp, hf, Option.isSome_some, if_true]
      rw [List.filter_append, List.filter_append,
        List.filter_eq_nil_iff.mpr (by simpa using hperrs),
        List.filter_eq_self.mpr (validateDirectoryStructure_all_unexpected entries),
        List.filter_eq_nil_iff.mpr (by simpa using hfE)]
      simp
  · rw [validateDirectoryStructure, List.length_filterMap_eq_countP]
    apply List.countP_congr
    intro e _
    by_cases h : (e.isDir && !(ALLOWED_SKILL_DIRS.contains e.name)) = true <;> simp [h]

lemma mem_reservedErrs_iff {x : Diag} {n : List Char} :
    x ∈ reservedErrs n ↔
      ∃ w ∈ RESERVED_WORDS, listInfixOf w.data n = true ∧ x = Diag.nameReservedWord w := by
  simp only [reservedErrs, List.mem_filterMap, Option.ite_none_right_eq_some,
    Option.some.injEq]
  constructor
  · rintro ⟨w, hw, hinf, rfl⟩
    exact ⟨w, hw, hinf, rfl⟩
  · rintro ⟨w, hw, hinf, rfl⟩
    exact ⟨w, hw, hinf, rfl⟩

/-- C3 corrected: per-field rules are additive — each name rule fires exactly
when its own condition holds, independently of the others, and likewise for
the description rules — except that a description that is empty after
trimming short-circuits the remaining description checks (see the
counterexample); the statement therefore assumes a non-empty trimmed
description. -/
theorem field_rules_additive_except_empty_description (dn n d : String)
    (hd : pyStripIsEmpty d.data = false) :
    (Diag.nameTooLong n.length ∈ (validateName dn (YVal.str n)).1 ↔
      MAX_NAME_LENGTH < n.length) ∧
    (Diag.nameBadFormat ∈ (validateName dn (YVal.str n)).1 ↔
      pyNameRegexMatch n.data = false) ∧
    (∀ w, Diag.nameReservedWord w ∈ (validateName dn (YVal.str n)).1 ↔
      (w ∈ RESERVED_WORDS ∧ listInfixOf w.data n.data = true)) ∧
    (Diag.nameXmlTags ∈ (validateName dn (YVal.str n)).1 ↔
      (n.data.contains '<' || n.data.contains '>') = true) ∧
    (Diag.nameDirMismatch n dn ∈ (validateName dn (YVal.str n)).1 ↔ n ≠ dn) ∧
    (Diag.nameGerundWarning n ∈ (validateName dn (YVal.str n)).2 ↔
      (listSuffixOf "ing".data n.data = false ∧
        ∀ p ∈ GERUND_NAME_STARTS, listPrefixOf p.data n.data = false)) ∧
    (Diag.descTooLong d.length ∈ (validateDescription (YVal.str d)).1 ↔
      MAX_DESCRIPTION_LENGTH < d.length) ∧
    (Diag.descXmlTags ∈ (validateDescription (YVal.str d)).1 ↔
      (d.data.contains '<' || d.data.contains '>') = true) ∧
    (Diag.descNoTrigger ∈ (validateDescription (YVal.str d)).2 ↔
      ∀ k ∈ TRIGGER_KEYWORDS, listInfixOf k.data (pyLower d.data) = false) ∧
    (Diag.descFirstPerson ∈ (validateDescription (YVal.str d)).2 ↔
      ∃ k ∈ FIRST_PERSON_WORDS, listInfixOf k.data (pyLower d.data) = true) ∧
    (Diag.descSentenceCount ∈ (validateDescription (YVal.str d)).2 ↔
      (pySplitChar '.' d.data).length < 2) := by
  refine ⟨?_, ?_, ?_, ?_, ?_, ?_, ?_, ?_, ?_, ?_, ?_⟩
  · simp [validateName, mem_onlyIf, mem_reservedErrs_iff]
  · simp [validateName, mem_onlyIf, mem_reservedErrs_iff]
  · intro w
    simp [validateName, mem_onlyIf, mem_reservedErrs_iff]
  · simp [validateName, mem_onlyIf, mem_reservedErrs_iff]
  · simp [validateName, mem_onlyIf, mem_reservedErrs_iff]
  · simp [validateName, mem_onlyIf]
  · simp [validateDescription, hd, mem_onlyIf]
  · simp [validateDescription, hd, mem_onlyIf]
  · simp [validateDescription, hd, mem_onlyIf]
  · simp [validateDescription, hd, mem_onlyIf]
  · simp [validateDescription, hd, mem_onlyIf]

/-- Witness for the corrected C3: on the description `hello world` (no
trigger phrase, no period) the sentence-count check still fires. -/
theorem field_rules_additive_witness :
    Diag.descSentenceCount ∈ (validateDescription (YVal.str "hello world")).2 := by
  have h := field_rules_additive_except_empty_description "a" "a" "hello world" (by decide)
  exact (h.2.2.2.2.2.2.2.2.2.2).mpr (by decide)

lemma mem_skillCandidate_iff {dn : String} {m : FSNode} {p : List String} :
    p ∈ skillCandidate dn m ↔
      ∃ sn scs, m = FSNode.dir sn scs ∧ listPrefixOf ".".data sn.data = false ∧
        hasSkillMdIn scs = true ∧ p = [dn, sn] := by
  cases m with
  | file f =>
    simp only [skillCandidate, List.not_mem_nil, false_iff]
    rintro ⟨sn, scs, h, -⟩
    cases h
  | dir sn scs =>
    simp only [skillCandidate]
    split
    · simp only [List.not_mem_nil, false_iff]
      rintro ⟨sn', scs', heq, hhid, -⟩
      injection heq with h1 h2
      subst h1; subst h2
      simp_all
    · split
      · simp only [List.mem_singleton]
        constructor
        · rintro rfl
          exact ⟨sn, scs, rfl, by simp_all, by assumption, rfl⟩
        · rintro ⟨sn', scs', heq, -, -, rfl⟩
          injection heq with h1 h2
          subst h1; rfl
      · simp only [List.not_mem_nil, false_iff]
        rintro ⟨sn', scs', heq, -, hmd, -⟩
        injection heq with h1 h2
        subst h1; subst h2
        simp_all

lemma mem_domainCandidate_iff {nd : FSNode} {p : List String} :
    p ∈ domainCandidate nd ↔
      ∃ dn dcs, nd = FSNode.dir dn dcs ∧ listPrefixOf ".".data dn.data = false ∧
        ∃ sn scs, FSNode.dir sn scs ∈ dcs ∧ listPrefixOf ".".data sn.data = false ∧
          hasSkillMdIn scs = true ∧ p = [dn, sn] := by
  cases nd with
  | file f =>
    simp only [domainCandidate, List.not_mem_nil, false_iff]
    rintro ⟨dn, dcs, h, -⟩
    cases h
  | dir dn dcs =>
    simp only [domainCandidate]
    split
    · simp only [List.not_mem_nil, false_iff]
      rintro ⟨dn', dcs', heq, hhid, -⟩
      injection heq with h1 h2
      subst h1; subst h2
      simp_all
    · rw [List.mem_flatten]
      constructor
      · rintro ⟨l, hl, hp⟩
        rw [List.mem_map] at hl
        obtain ⟨m, hm, rfl⟩ := hl
        obtain ⟨sn, scs, rfl, hhid, hmd, rfl⟩ := mem_skillCandidate_iff.mp hp
        exact ⟨dn, dcs, rfl, by simp_all, sn, scs, hm, hhid, hmd, rfl⟩
      · rintro ⟨dn', dcs', heq, -, sn, scs, hm, hhid, hmd, rfl⟩
        injection heq with h1 h2
        subst h1; subst h2
        exact ⟨skillCandidate dn (FSNode.dir sn scs), List.mem_map_of_mem _ hm,
          mem_skillCandidate_iff.mpr ⟨sn, scs, rfl, hhid, hmd, rfl⟩⟩

/-- C8: skill discovery is exactly two-level.  If the root itself holds
`SKILL.md` it is the single discovered skill (path `[]`); otherwise a path is
discovered iff it is a non-hidden directory inside a non-hidden directory of
the root and holds `SKILL.md`.  No deeper nesting is ever discovered. -/
theorem skill_discovery_two_level (cs : List FSNode) (p : List String) :
    p ∈ findSkillDirectories cs ↔
      ((hasSkillMdIn cs = true ∧ p = []) ∨
       (hasSkillMdIn cs = false ∧
         ∃ dn dcs, FSNode.dir dn dcs ∈ cs ∧ listPrefixOf ".".data dn.data = false ∧
           ∃ sn scs, FSNode.dir sn scs ∈ dcs ∧ listPrefixOf ".".data sn.data = false ∧
             hasSkillMdIn scs = true ∧ p = [dn, sn])) := by
  unfold findSkillDirectories
  cases hmd : hasSkillMdIn cs with
  | true =>
    simp only [if_true, List.mem_singleton]
    constructor
    · rintro rfl; exact Or.inl ⟨by simp, rfl⟩
    · rintro (⟨-, rfl⟩ | ⟨h, -⟩)
      · rfl
      · cases h
  | false =>
    simp only [if_false, List.mem_flatten, Bool.false_eq_true, false_and, false_or]
    constructor
    · rintro ⟨l, hl, hp⟩
      rw [List.mem_map] at hl
      obtain ⟨nd, hnd, rfl⟩ := hl
      obtain ⟨dn, dcs, rfl, hhid, rest⟩ := mem_domainCandidate_iff.mp hp
      exact ⟨by simp, dn, dcs, hnd, hhid, rest⟩
    · rintro ⟨-, dn, dcs, hnd, hhid, rest⟩
      exact ⟨domainCandidate (FSNode.dir dn dcs), List.mem_map_of_mem _ hnd,
        mem_domainCandidate_iff.mpr ⟨dn, dcs, rfl, hhid, rest⟩⟩

lemma findSubAux_eq_none_iff {needle : List Char} (hne : needle ≠ []) :
    ∀ (l : List Char) (i : Nat),
      findSubAux needle l i = none ↔ ∀ j, listPrefixOf needle (l.drop j) = false := by
  intro l
  induction l with
  | nil =>
    intro i
    constructor
    · intro _ j
      cases hn : needle with
      | nil => exact absurd hn hne
      | cons a as => simp [List.drop_nil, listPrefixOf]
    · intro _
      simp [findSubAux, List.isEmpty_iff, hne]
  | cons c t ih =>
    intro i
    simp only [findSubAux]
    split
    · constructor
      · intro h; cases h
      · intro h
        exact absurd (by simpa using h 0) (by simp_all)
    · rw [ih (i + 1)]
      constructor
      · intro h j
        cases j with
        | zero => simp_all
        | succ j => simpa [List.drop_succ_cons] using h j
      · intro h j
        simpa [List.drop_succ_cons] using h (j + 1)

lemma frontmatter_field_not_notClosed {dn : String} {fm : FM} {d : Diag}
    (h : d ∈ (validateFrontmatter dn fm).1) : d ≠ Diag.frontmatterNotClosed := by
  intro heq
  subst heq
  exact absurd (validateFrontmatter_errs_field dn fm _ h) (by simp [isFieldDiag])

/-- C9 corrected: for a file opening with the frontmatter delimiter, the block
is treated as closed exactly when the five-character string newline-dashes-
newline occurs at some byte offset at least 4; equivalently, the
frontmatter-not-closed error is reported iff no such occurrence exists — a
closing line must be newline-terminated, so a final `---` with no trailing
newline does not close the block. -/
theorem frontmatter_closed_iff_delimiter_found (yaml : String → YamlParseResult)
    (dn c : String) (entries : List Entry) (px : String → Bool)
    (h2 : listPrefixOf "---\n".data c.data = true) :
    (Diag.frontmatterNotClosed ∈
        (SkillValidator.validate yaml ⟨dn, FileState.content c, entries, px⟩).1
      ↔ ∀ i, 4 ≤ i → listPrefixOf "\n---\n".data (c.data.drop i) = false) := by
  have hfind : (pyFind "\n---\n".data c.data 4 = none) ↔
      (∀ i, 4 ≤ i → listPrefixOf "\n---\n".data (c.data.drop i) = false) := by
    unfold pyFind
    rw [findSubAux_eq_none_iff (by decide)]
    constructor
    · intro h i hi
      have hj := h (i - 4)
      rwa [List.drop_drop, Nat.add_sub_cancel' hi] at hj
    · intro h j
      rw [List.drop_drop]
      exact h (4 + j) (by omega)
  cases hp : pyFind "\n---\n".data c.data 4 with
  | none =>
    have hval : SkillValidator.validate yaml ⟨dn, FileState.content c, entries, px⟩
        = ([Diag.frontmatterNotClosed], []) := by
      simp [SkillValidator.validate, parseSkillMd, h2, hp]
    rw [hval]
    simp only [List.mem_singleton, true_iff]
    · exact hfind.mp hp
  | some e =>
    have hR : ¬ (∀ i, 4 ≤ i → listPrefixOf "\n---\n".data (c.data.drop i) = false) := by
      intro h
      have := hfind.mpr h
      rw [hp] at this
      cases this
    have hL : Diag.frontmatterNotClosed ∉
        (SkillValidator.validate yaml ⟨dn, FileState.content c, entries, px⟩).1 := by
      intro hmem
      cases hy : yaml (String.mk ((c.data.drop 4).take (e - 4))) with
      | ok fm =>
        rcases hf : validateFrontmatter dn fm with ⟨fE, fW⟩
        simp only [SkillValidator.validate, parseSkillMd, h2, if_true, hp, hy, hf,
          List.nil_append, List.mem_append] at hmem
        rcases hmem with hmem | hmem
        · exact absurd (validateDirectoryStructure_all_unexpected entries _ hmem)
            (by simp [isUnexpectedDirErr])
        · exact frontmatter_field_not_notClosed (by rw [hf]; exact hmem) rfl
      | nonDict =>
        simp only [SkillValidator.validate, parseSkillMd, h2, if_true, hp, hy,
          List.mem_singleton] at hmem
        cases hmem
      | err m =>
        simp only [SkillValidator.validate, parseSkillMd, h2, if_true, hp, hy,
          List.mem_singleton] at hmem
        cases hmem
    exact iff_of_false hL hR

/-- Witness for the corrected C9: `---\nab` opens but never closes its
frontmatter block, so the not-closed error is reported. -/
theorem frontmatter_closed_iff_delimiter_found_witness :
    listPrefixOf "---\n".data "---\nab".data = true ∧
    Diag.frontmatterNotClosed ∈
      (SkillValidator.validate (fun _ => YamlParseResult.nonDict)
        ⟨"s", FileState.content "---\nab", [], fun _ => false⟩).1 := by
  refine ⟨by decide, ?_⟩
  refine (frontmatter_closed_iff_delimiter_found (fun _ => YamlParseResult.nonDict)
    "s" "---\nab" [] (fun _ => false) (by decide)).mpr ?_
  intro i hi
  cases hp : listPrefixOf "\n---\n".data ("---\nab".data.drop i) with
  | false => rfl
  | true =>
    exfalso
    have hlen := listPrefixOf_length hp
    have h5 : ("\n---\n".data).length = 5 := by decide
    have h6 : ("---\nab".data).length = 6 := by decide
    rw [h5, List.length_drop, h6] at hlen
    omega

lemma format_for_github_head (e : ValidationError) :
    ∃ t, (ValidationError.format_for_github e).data = ':' :: t := by
  unfold ValidationError.format_for_github
  cases e.filePath with
  | none =>
    refine ⟨':' :: (e.level ++ "::" ++ e.message).data, ?_⟩
    simp [String.data_append]
  | some p =>
    refine ⟨':' :: (e.level ++ " file=" ++ p ++ "::" ++ e.message).data, ?_⟩
    simp [String.data_append]

lemma format_for_terminal_head (e : ValidationError) :
    ∃ t, (ValidationError.format_for_terminal e).data = '\x1b' :: t := by
  unfold ValidationError.format_for_terminal
  split <;>
    [refine ⟨("[91m" ++ ANSI_BOLD ++ "ERROR" ++ ANSI_RESET).data ++ _, ?_⟩;
     refine ⟨("[93m" ++ ANSI_BOLD ++ "WARNING" ++ ANSI_RESET).data ++ _, ?_⟩] <;>
    simp [String.data_append, ANSI_RED, ANSI_YELLOW]

lemma formats_differ (e : ValidationError) :
    ValidationError.format_for_terminal e ≠ ValidationError.format_for_github e := by
  intro h
  obtain ⟨t1, h1⟩ := format_for_terminal_head e
  obtain ⟨t2, h2⟩ := format_for_github_head e
  rw [h, h2] at h1
  injection h1 with hc
  cases hc

/-- C10: the CI-annotation rendering is chosen iff the `--github` flag is set
or the literal string `GITHUB_ACTIONS` occurs in the argument list; the
decision depends on nothing else (the only inputs of the model are the flag and
the argument list). -/
theorem github_format_iff_flag_or_argv (githubFlag : Bool) (argv : List String)
    (e : ValidationError) (ds : List ValidationError) :
    (isGithubActions githubFlag argv = (githubFlag || argv.contains "GITHUB_ACTIONS")) ∧
    (renderDiagnostics githubFlag argv (e :: ds)
        = (e :: ds).map ValidationError.format_for_github ↔
      (githubFlag = true ∨ "GITHUB_ACTIONS" ∈ argv)) := by
  refine ⟨rfl, ?_⟩
  constructor
  · intro h
    by_contra hc
    push_neg at hc
    have hga : isGithubActions githubFlag argv = false := by
      have hmem : argv.contains "GITHUB_ACTIONS" = false := by
        cases hm : argv.contains "GITHUB_ACTIONS" with
        | false => rfl
        | true => exact absurd (List.mem_of_elem_eq_true hm) hc.2
      have hg : githubFlag = false := Bool.eq_false_iff.mpr hc.1
      rw [isGithubActions, hg, hmem]
      rfl
    rw [renderDiagnostics] at h
    simp only [hga, Bool.false_eq_true, if_false, List.map_cons, List.cons.injEq] at h
    exact formats_differ e h.1
  · intro h
    have hga : isGithubActions githubFlag argv = true := by
      rcases h with h | h
      · simp [isGithubActions, h]
      · have he : argv.contains "GITHUB_ACTIONS" = true := List.elem_eq_true_of_mem h
        rw [isGithubActions, he]
        simp
    simp [renderDiagnostics, hga]
